import Mathlib

/-!
Verification development for the Attend, Infer, Repeat (AIR) implementation
(`attend_infer_repeat`: `cell.py`, `model.py`, `modules.py`).

Real-valued tensor computations are modelled over `ℝ`.  Stochastic draws
(Gaussian and Bernoulli samples) are passed in explicitly as inputs.  Where
gradient-flow structure matters (`tf.stop_gradient`), computations are carried
out on forward-mode dual numbers `Dual` whose `grad` component tracks the
derivative with respect to a scalar perturbation of the inputs.
-/

namespace AIR

/-- tf.clip_by_value: clamp `x` into `[lo, hi]` (computed as `max (min x hi) lo`,
matching TensorFlow's `min` then `max` order). -/
noncomputable def clipR (x lo hi : ℝ) : ℝ := max (min x hi) lo

/-- Logistic sigmoid, the output nonlinearity of `modules.py` `StepsPredictor`. -/
noncomputable def sigmoidR (x : ℝ) : ℝ := 1 / (1 + Real.exp (-x))

/-- Softplus, the scale transform of `NormalWithSoftplusScale`. -/
noncomputable def softplusR (x : ℝ) : ℝ := Real.log (1 + Real.exp x)

/-- Forward-mode dual number: a value together with its derivative with respect
to a fixed scalar perturbation of the inputs. -/
structure Dual where
  val : ℝ
  grad : ℝ

namespace Dual

noncomputable instance : Add Dual := ⟨fun a b => ⟨a.val + b.val, a.grad + b.grad⟩⟩

noncomputable instance : Sub Dual := ⟨fun a b => ⟨a.val - b.val, a.grad - b.grad⟩⟩

noncomputable instance : Neg Dual := ⟨fun a => ⟨-a.val, -a.grad⟩⟩

noncomputable instance : Mul Dual :=
  ⟨fun a b => ⟨a.val * b.val, a.grad * b.val + a.val * b.grad⟩⟩

/-- tf.stop_gradient: identity on the forward value, zero derivative. -/
def stopGrad (a : Dual) : Dual := ⟨a.val, 0⟩

/-- tf.clip_by_value on dual numbers: clipped forward value; the gradient
passes through exactly when the value lies inside the clipping range. -/
noncomputable def clip (a : Dual) (lo hi : ℝ) : Dual :=
  ⟨clipR a.val lo hi, if lo ≤ a.val ∧ a.val ≤ hi then a.grad else 0⟩

end Dual

/-- cell.py lines 146–147: straight-through clipping of the step probability,
`stop_gradient(clip_by_value(p, eps, 1 - eps) - p) + p`. -/
noncomputable def straightThroughClip (p : Dual) (eps : ℝ) : Dual :=
  let clipped := Dual.clip p eps (1 - eps)
  Dual.stopGrad (clipped - p) + p

/-- Batch mean: `tf.reduce_mean` over a batch of size `n`. -/
noncomputable def mean (n : ℕ) (f : Fin n → ℝ) : ℝ := (∑ i, f i) / n

/-- model.py `AIRModel._reinforce` (lines 167–188), on dual numbers.
The log-probability of the realized number of steps is clipped into
`[-1e38, 1e38]`; the importance weight is the per-sample total loss, minus the
baseline when one is present; the surrogate is the batch mean of
`stop_gradient(importance_weight) * log_prob`. -/
noncomputable def airReinforce (n : ℕ) (lossPerSample : Fin n → Dual)
    (baseline : Option (Fin n → Dual)) (logProb : Fin n → Dual) : Dual :=
  let logProbClipped := fun i => Dual.clip (logProb i) (-(10 ^ 38)) (10 ^ 38)
  let importanceWeight := fun i =>
    match baseline with
    | some b => lossPerSample i - b i
    | none => lossPerSample i
  let reinforcePerSample := fun i =>
    Dual.stopGrad (importanceWeight i) * logProbClipped i
  ⟨(∑ i, (reinforcePerSample i).val) / n, (∑ i, (reinforcePerSample i).grad) / n⟩

/-- modules.py `StepsPredictor` (lines 110–120): sigmoid of an MLP output plus
a constant bias. -/
noncomputable def stepsPredictorModule {O : Type} (mlp : O → ℝ) (stepsBias : ℝ)
    (inpt : O) : ℝ :=
  sigmoidR (mlp inpt + stepsBias)

/-- Per-step random draws consumed by one invocation of the cell:
the `where`-distribution sample, the `what`-distribution sample, and the
Bernoulli presence sample. -/
structure CellDraws (nApp : ℕ) where
  whereSample : Fin 4 → ℝ
  whatSample : Fin nApp → ℝ
  presenceSample : ℝ

/-- The sub-network collaborators of cell.py `AIRCell`, each an opaque
function with the input/output contract the cell relies on.  `H` is the
transition hidden state, `E` the input encoding, `O` the transition output,
`G` a glimpse-sized tensor, `P` the projected RNN input, `W` the raw
what-distribution parameters. -/
structure CellNets (nPix nApp : ℕ) (H E O G P W : Type) where
  inputEncoder : (Fin nPix → ℝ) → E
  rnnProjection : E → (Fin nApp → ℝ) → (Fin 4 → ℝ) → ℝ → P
  transition : P → H → O × H
  transformEstimator : O → (Fin 4 → ℝ) × (Fin 4 → ℝ)
  stepsPredictor : O → ℝ
  glimpseEncoder : G → W
  whatDistribParams : W → (Fin nApp → ℝ) × (Fin nApp → ℝ)
  glimpseDecoder : (Fin nApp → ℝ) → (Fin 4 → ℝ) → G
  spatialTransformer : (Fin nPix → ℝ) → (Fin 4 → ℝ) → G
  inverseTransformer : G → (Fin 4 → ℝ) → (Fin nPix → ℝ)

/-- The state threaded through the recurrent cell (cell.py `state_size`):
flattened image, flattened canvas, what code, where code, transition hidden
state, cumulative presence. -/
structure CellState (nPix nApp : ℕ) (H : Type) where
  imgFlat : Fin nPix → ℝ
  canvasFlat : Fin nPix → ℝ
  whatCode : Fin nApp → ℝ
  whereCode : Fin 4 → ℝ
  hidden : H
  presence : ℝ

/-- The per-step outputs of the cell (cell.py `output_size` / `output_names`). -/
structure CellOutput (nPix nApp : ℕ) (G : Type) where
  canvas : Fin nPix → ℝ
  glimpse : G
  whatCode : Fin nApp → ℝ
  whatLoc : Fin nApp → ℝ
  whatScale : Fin nApp → ℝ
  whereCode : Fin 4 → ℝ
  whereLoc : Fin 4 → ℝ
  whereScale : Fin 4 → ℝ
  presenceProb : ℝ
  presence : ℝ

/-- cell.py `AIRCell._build` (lines 120–176), one step of the AIR loop.
Samples are supplied through `draws`; `stop_gradient` is the identity on
forward values, so the straight-through clip contributes its clipped forward
value and the where code reaches the decoder unchanged. -/
noncomputable def airCellStep {nPix nApp : ℕ} {H E O G P W : Type}
    (discreteSteps : Bool) (exploreEps : Option ℝ)
    (nets : CellNets nPix nApp H E O G P W) (draws : CellDraws nApp)
    (state : CellState nPix nApp H) :
    CellOutput nPix nApp G × CellState nPix nApp H :=
  let inptEncoding := nets.inputEncoder state.imgFlat
  let rnnInpt :=
    nets.rnnProjection inptEncoding state.whatCode state.whereCode state.presence
  let trans := nets.transition rnnInpt state.hidden
  let hiddenOutput := trans.1
  let hiddenState := trans.2
  let whereParam := nets.transformEstimator hiddenOutput
  let whereLoc := whereParam.1
  let whereScale := fun i => softplusR (whereParam.2 i)
  let whereCode := draws.whereSample
  let cropped := nets.spatialTransformer state.imgFlat whereCode
  let presenceProbRaw := nets.stepsPredictor hiddenOutput
  let presenceProb :=
    match exploreEps with
    | some eps => (straightThroughClip ⟨presenceProbRaw, 0⟩ eps).val
    | none => presenceProbRaw
  let presence :=
    if discreteSteps then state.presence * draws.presenceSample else presenceProb
  let whatParams := nets.glimpseEncoder cropped
  let whatDistrib := nets.whatDistribParams whatParams
  let whatCode := draws.whatSample
  let decoded := nets.glimpseDecoder whatCode whereCode
  let inversedFlat := nets.inverseTransformer decoded whereCode
  let canvasFlat := fun j => state.canvasFlat j + presence * inversedFlat j
  (⟨canvasFlat, decoded, whatCode, whatDistrib.1, whatDistrib.2, whereCode,
    whereLoc, whereScale, presenceProb, presence⟩,
   ⟨state.imgFlat, canvasFlat, whatCode, whereCode, hiddenState, presence⟩)

/-- cell.py `initial_state` (lines 103–118): the canvas starts black (or at the
trainable initial value), and the initial presence is one. -/
noncomputable def airInitialState {nPix nApp : ℕ} {H : Type}
    (canvasInit : Option ℝ) (img : Fin nPix → ℝ)
    (what0 : Fin nApp → ℝ) (where0 : Fin 4 → ℝ) (h0 : H) :
    CellState nPix nApp H :=
  ⟨img, (fun _ => match canvasInit with | none => 0 | some c => c),
   what0, where0, h0, 1⟩

/-- The sequence of cell states obtained by unrolling `airCellStep` from a
start state (model.py `dynamic_rnn` unroll, lines 70–75). -/
noncomputable def cellTrace {nPix nApp : ℕ} {H E O G P W : Type}
    (discreteSteps : Bool) (exploreEps : Option ℝ)
    (nets : CellNets nPix nApp H E O G P W) (draws : ℕ → CellDraws nApp)
    (s0 : CellState nPix nApp H) : ℕ → CellState nPix nApp H
  | 0 => s0
  | k + 1 =>
    (airCellStep discreteSteps exploreEps nets (draws k)
      (cellTrace discreteSteps exploreEps nets draws s0 k)).2

/-- Modelled from the spec: the `Loss` accumulator of `ops.py` (missing from
`src/`): "holds a scalar aggregate value and a per-sample vector; supports
additive composition of multiple named loss terms while preserving the
ability to inspect the per-sample breakdown".  Represented as the list of
added terms, each a (scalar value, per-sample vector) pair. -/
structure Loss (n : ℕ) where
  terms : List (ℝ × (Fin n → ℝ))

namespace Loss

/-- The aggregate scalar value: sum of the added term values. -/
def value {n : ℕ} (l : Loss n) : ℝ := (l.terms.map Prod.fst).sum

/-- The per-sample vector: sum of the added per-sample vectors. -/
def perSample {n : ℕ} (l : Loss n) (i : Fin n) : ℝ :=
  (l.terms.map fun t => t.2 i).sum

/-- Add one named term (scalar value plus per-sample vector). -/
def add {n : ℕ} (l : Loss n) (v : ℝ) (ps : Fin n → ℝ) : Loss n :=
  ⟨l.terms ++ [(v, ps)]⟩

/-- Add all terms of another `Loss` (e.g. `loss.add(self.prior_loss)`). -/
def append {n : ℕ} (l m : Loss n) : Loss n := ⟨l.terms ++ m.terms⟩

end Loss

/-- A Gaussian prior configuration: location and scale (`AttrDict` with `loc`
and `scale` in model.py). -/
structure GaussPrior where
  loc : ℝ
  scale : ℝ

/-- The where-shift prior: `loc` is optional (model.py line 152 tests
`'loc' in where_shift_prior`). -/
structure ShiftPrior where
  loc : Option ℝ
  scale : ℝ

/-- Annealing mode of the num-steps prior (`anneal='exp'`, `'linear'`). -/
inductive AnnealMode
  | exp
  | linear

/-- The num-steps prior configuration (model.py train_step docstring):
annealing mode (or none), initial and final success-probability values,
`steps_div` and `steps`. -/
structure NumStepsPriorCfg where
  anneal : Option AnnealMode
  init : ℝ
  final : ℝ
  stepsDiv : ℝ
  steps : ℝ

/-- model.py `_prior_loss` lines 98–114: the annealed num-steps prior value at
a given global step.  Exponential mode uses `tf.train.exponential_decay`,
i.e. `init * decay_rate ^ (global_step / steps_div)` with
`decay_rate = (final / init) ^ (steps_div / steps)`; linear mode interpolates
`final + (init - final) * (1 - global_step / steps)`; both are floored at
`final` by `tf.maximum`; without annealing the value is `init`. -/
noncomputable def annealedValue (nsp : NumStepsPriorCfg) (globalStep : ℝ) : ℝ :=
  match nsp.anneal with
  | none => nsp.init
  | some AnnealMode.exp =>
    let decayRate := (nsp.final / nsp.init) ^ (nsp.stepsDiv / nsp.steps)
    max nsp.final (nsp.init * decayRate ^ (globalStep / nsp.stepsDiv))
  | some AnnealMode.linear =>
    max nsp.final
      (nsp.final + (nsp.init - nsp.final) * (1 - globalStep / nsp.steps))

/-- Modelled from the spec: `geometric_prior` of `prior.py` (missing from
`src/`): "builds a geometric-distribution probability table over step counts"
with success probability `p` (`init=.9` means probability `.9` of one step,
`.9 ** 2` of two steps, ...), truncated at `numSteps`, as a table over
`{0..numSteps}`. -/
noncomputable def geometricPrior (p : ℝ) (numSteps : ℕ) : List ℝ :=
  (List.range (numSteps + 1)).map fun k =>
    if k = numSteps then p ^ k else p ^ k * (1 - p)

/-- Modelled from the spec: `tabular_kl` of `prior.py` (missing from `src/`):
"computes KL divergence against the posterior step-count table", i.e. the
elementwise `q * log (q / p)` over paired table entries. -/
noncomputable def tabularKl (q p : List ℝ) : ℝ :=
  ((q.zip p).map fun qp => qp.1 * Real.log (qp.1 / qp.2)).sum

/-- model.py line 116: the prior table used in the step-count KL is
`geometric_prior(num_steps_prior_value, 3)` — the step-count argument is the
literal `3`; the model's `max_steps` is not consulted. -/
noncomputable def airNumStepsPriorTable (maxSteps : ℕ) (priorValue : ℝ) :
    List ℝ :=
  geometricPrior priorValue 3

/-- KL divergence between `Normal(μa, σa)` and `Normal(μb, σb)`
(the closed form computed by the TensorFlow `kl` registration for Normals). -/
noncomputable def klNormal (μa σa μb σb : ℝ) : ℝ :=
  Real.log (σb / σa) + (σa ^ 2 + (μa - μb) ^ 2) / (2 * σb ^ 2) - 1 / 2

/-- model.py lines 150–158: one coordinate of the shift KL.  The prior mean is
`where_shift_prior.loc` when present and otherwise the posterior mean itself. -/
noncomputable def shiftKlTerm (wsp : ShiftPrior) (ut st : ℝ) : ℝ :=
  let shiftMean :=
    match wsp.loc with
    | some l => l
    | none => ut
  klNormal ut st shiftMean wsp.scale

/-- The posterior statistics consumed by `_prior_loss`: the per-sample
step-count posterior table, the per-step what/where posterior parameters
(where coordinates ordered `sx, tx, sy, ty` as in model.py line 139), and the
per-step presence values. -/
structure PriorPosterior (S n nApp : ℕ) where
  stepsPosterior : Fin n → List ℝ
  whatLoc : Fin S → Fin n → Fin nApp → ℝ
  whatScale : Fin S → Fin n → Fin nApp → ℝ
  whereLoc : Fin S → Fin n → Fin 4 → ℝ
  whereScale : Fin S → Fin n → Fin 4 → ℝ
  presence : Fin S → Fin n → ℝ

/-- model.py `AIRModel._prior_loss` (lines 92–165).  The num-steps KL is added
when a num-steps prior is configured.  The appearance KL — and, inside the
same branch, the pose (where) KL — are added only when an appearance prior is
configured; the pose KL block (lines 139–163) sits inside
`if appearance_prior is not None`. -/
noncomputable def airPriorLoss (S n nApp maxSteps : ℕ)
    (numStepsPrior : Option NumStepsPriorCfg)
    (appearancePrior : Option GaussPrior)
    (whereScalePrior : GaussPrior) (whereShiftPrior : ShiftPrior)
    (globalStep : ℝ) (post : PriorPosterior S n nApp) : Loss n :=
  let l0 : Loss n := ⟨[]⟩
  let l1 :=
    match numStepsPrior with
    | none => l0
    | some nsp =>
      let prior := airNumStepsPriorTable maxSteps (annealedValue nsp globalStep)
      let numStepsPerSample := fun i => tabularKl (post.stepsPosterior i) prior
      l0.add (mean n numStepsPerSample) numStepsPerSample
  match appearancePrior with
  | none => l1
  | some ap =>
    let whatKl := fun (k : Fin S) (i : Fin n) =>
      (∑ j, klNormal (post.whatLoc k i j) (post.whatScale k i j) ap.loc ap.scale)
        * post.presence k i
    let appearancePerSample := fun i => ∑ k, whatKl k i
    let l2 := l1.add (mean n appearancePerSample) appearancePerSample
    let scaleKl := fun (k : Fin S) (i : Fin n) =>
      klNormal (post.whereLoc k i 0) (post.whereScale k i 0)
          whereScalePrior.loc whereScalePrior.scale
        + klNormal (post.whereLoc k i 2) (post.whereScale k i 2)
          whereScalePrior.loc whereScalePrior.scale
    let shiftKl := fun (k : Fin S) (i : Fin n) =>
      shiftKlTerm whereShiftPrior (post.whereLoc k i 1) (post.whereScale k i 1)
        + shiftKlTerm whereShiftPrior (post.whereLoc k i 3) (post.whereScale k i 3)
    let whereKlPerSample := fun i =>
      ∑ k, (scaleKl k i + shiftKl k i) * post.presence k i
    l2.add (mean n whereKlPerSample) whereKlPerSample

/-- Log-density of `Normal(μ, σ)` at `x` (the TensorFlow `Normal.log_prob`
closed form), used by model.py line 83/251 with `μ = final_canvas` and
`σ = output_std`. -/
noncomputable def normalLogProb (μ σ x : ℝ) : ℝ :=
  -((x - μ) ^ 2 / (2 * σ ^ 2)) - Real.log (σ * Real.sqrt (2 * Real.pi))

/-- model.py lines 251–252: per-sample reconstruction loss, the negative
log-likelihood of the observation under the output distribution centered at
the final canvas, summed over the pixel dimensions. -/
noncomputable def recLossPerSample {n nPix : ℕ}
    (obs finalCanvas : Fin n → Fin nPix → ℝ) (outputStd : ℝ) (i : Fin n) : ℝ :=
  ∑ j, -(normalLogProb (finalCanvas i j) outputStd (obs i j))

/-- model.py train_step lines 245–262: the `Loss` accumulator holding the
reconstruction term and, when `use_prior` is set, the prior-loss terms. -/
noncomputable def airTotalLoss (S n nApp nPix maxSteps : ℕ)
    (obs finalCanvas : Fin n → Fin nPix → ℝ) (outputStd : ℝ)
    (numStepsPrior : Option NumStepsPriorCfg)
    (appearancePrior : Option GaussPrior)
    (whereScalePrior : GaussPrior) (whereShiftPrior : ShiftPrior)
    (usePrior : Bool) (globalStep : ℝ) (post : PriorPosterior S n nApp) :
    Loss n :=
  let recPS := recLossPerSample obs finalCanvas outputStd
  let loss0 : Loss n := Loss.add ⟨[]⟩ (mean n recPS) recPS
  if usePrior then
    loss0.append (airPriorLoss S n nApp maxSteps numStepsPrior appearancePrior
      whereScalePrior whereShiftPrior globalStep post)
  else loss0

/-- model.py train_step lines 264–281: the optimized objective.  It starts
from the accumulated loss value, adds the REINFORCE surrogate when
`use_reinforce` is set (evaluating `_reinforce` on the per-sample total
loss), and adds `l2_weight * l2_term` when `l2_weight > 0`. -/
noncomputable def airOptLoss (S n nApp nPix maxSteps : ℕ)
    (obs finalCanvas : Fin n → Fin nPix → ℝ) (outputStd : ℝ)
    (numStepsPrior : Option NumStepsPriorCfg)
    (appearancePrior : Option GaussPrior)
    (whereScalePrior : GaussPrior) (whereShiftPrior : ShiftPrior)
    (usePrior useReinforce : Bool) (l2Weight l2Term : ℝ)
    (baseline : Option (Fin n → ℝ)) (logProb : Fin n → ℝ)
    (globalStep : ℝ) (post : PriorPosterior S n nApp) : ℝ :=
  let loss := airTotalLoss S n nApp nPix maxSteps obs finalCanvas outputStd
    numStepsPrior appearancePrior whereScalePrior whereShiftPrior usePrior
    globalStep post
  let optLoss0 := loss.value
  let optLoss1 :=
    if useReinforce then
      optLoss0 + (airReinforce n (fun i => ⟨loss.perSample i, 0⟩)
        (baseline.map fun b => fun i => ⟨b i, 0⟩)
        (fun i => ⟨logProb i, 0⟩)).val
    else optLoss0
  if 0 < l2Weight then optLoss1 + l2Weight * l2Term else optLoss1

/-- The configuration stored by the cell constructor. -/
structure AIRCellConfig where
  exploreEps : Option ℝ
  discreteSteps : Bool

/-- cell.py `AIRCell.__init__` (lines 16–49): stores the configuration.  The
docstring requires `explore_eps ∈ (0, 0.5)` when given, but the constructor
performs no validation of `explore_eps` (nor does model.py `_build`,
lines 57–68): no code path can fail on its value. -/
def airCellInit (exploreEps : Option ℝ) (discreteSteps : Bool) :
    Except String AIRCellConfig :=
  Except.ok ⟨exploreEps, discreteSteps⟩

/-- A trivial instantiation of the cell collaborators on a 1-pixel image with
a 1-dimensional appearance code, whose steps predictor is the
`StepsPredictor` module with a zero MLP and zero bias. -/
noncomputable def trivialNets : CellNets 1 1 Unit Unit Unit Unit Unit Unit :=
  ⟨fun _ => (), fun _ _ _ _ => (), fun _ _ => ((), ()),
   fun _ => (fun _ => 0, fun _ => 0), stepsPredictorModule (fun _ => 0) 0,
   fun _ => (), fun _ => (fun _ => 0, fun _ => 0), fun _ _ => (),
   fun _ _ => (), fun _ _ _ => 0⟩

/-- Per-step draws for the trivial instantiation: every Bernoulli presence
sample is 1. -/
def trivialDraws : ℕ → CellDraws 1 := fun _ => ⟨fun _ => 0, fun _ => 0, 1⟩

@[simp] theorem Dual.add_val (a b : Dual) : (a + b).val = a.val + b.val := rfl

@[simp] theorem Dual.add_grad (a b : Dual) : (a + b).grad = a.grad + b.grad :=
  rfl

@[simp] theorem Dual.sub_val (a b : Dual) : (a - b).val = a.val - b.val := rfl

@[simp] theorem Dual.sub_grad (a b : Dual) : (a - b).grad = a.grad - b.grad :=
  rfl

@[simp] theorem Dual.mul_val (a b : Dual) : (a * b).val = a.val * b.val := rfl

@[simp] theorem Dual.mul_grad (a b : Dual) :
    (a * b).grad = a.grad * b.val + a.val * b.grad := rfl

@[simp] theorem Dual.stopGrad_val (a : Dual) : (stopGrad a).val = a.val := rfl

@[simp] theorem Dual.stopGrad_grad (a : Dual) : (stopGrad a).grad = 0 := rfl

/-- The forward value of the straight-through clip is the clipped value. -/
theorem straightThroughClip_val (p : Dual) (eps : ℝ) :
    (straightThroughClip p eps).val = clipR p.val eps (1 - eps) := by
  simp [straightThroughClip, Dual.clip]

/-- Clipping is the identity on dual numbers whose value lies in range. -/
theorem Dual.clip_of_mem (a : Dual) (lo hi : ℝ) (h1 : lo ≤ a.val)
    (h2 : a.val ≤ hi) : Dual.clip a lo hi = a := by
  simp [Dual.clip, clipR, min_eq_left h2, max_eq_left, h1, h2]

/-- The sigmoid output is strictly between 0 and 1. -/
theorem sigmoidR_mem (x : ℝ) : 0 < sigmoidR x ∧ sigmoidR x < 1 := by
  have hden : (0:ℝ) < 1 + Real.exp (-x) := by positivity
  constructor
  · exact div_pos one_pos hden
  · rw [sigmoidR, div_lt_one hden]
    simpa using Real.exp_pos (-x)

/-- C4: for every pre-clip step probability and every exploration floor, the
forward value of the straight-through clipping operation of cell.py lines
146–147 is exactly the clipped probability `clip(p, eps, 1 - eps)`. -/
theorem c4_straight_through_forward_value (p : Dual) (eps : ℝ) :
    (straightThroughClip p eps).val = clipR p.val eps (1 - eps) :=
  straightThroughClip_val p eps

/-- C8: one invocation of the cell step returns the image component of the
carried state unchanged (cell.py line 174 re-threads `img_flat`). -/
theorem c8_image_unchanged {nPix nApp : ℕ} {H E O G P W : Type}
    (discreteSteps : Bool) (exploreEps : Option ℝ)
    (nets : CellNets nPix nApp H E O G P W) (draws : CellDraws nApp)
    (state : CellState nPix nApp H) :
    ((airCellStep discreteSteps exploreEps nets draws state).2).imgFlat
      = state.imgFlat := rfl

/-- C10: the geometric prior table of model.py line 116 is built with the
fixed step-count argument 3, independently of the configured `max_steps`:
any two values of `max_steps` produce the same table, which is the geometric
table for exactly 3 steps and has 4 entries. -/
theorem c10_prior_table_fixed_at_three (m₁ m₂ : ℕ) (v : ℝ) :
    airNumStepsPriorTable m₁ v = airNumStepsPriorTable m₂ v
    ∧ airNumStepsPriorTable m₁ v = geometricPrior v 3
    ∧ (airNumStepsPriorTable m₁ v).length = 4 := by
  refine ⟨rfl, rfl, ?_⟩
  simp [airNumStepsPriorTable, geometricPrior]

/-- C3 counterexample: constructing the cell with the exploration floor 0.7 —
outside the open interval (0, 0.5) — succeeds; the constructor performs no
validation, so no configuration error is raised at construction time. -/
theorem c3_counterexample_construction_succeeds :
    airCellInit (some (7 / 10)) true = Except.ok ⟨some (7 / 10), true⟩
    ∧ ¬((0:ℝ) < 7 / 10 ∧ (7 / 10 : ℝ) < 1 / 2) :=
  ⟨rfl, by norm_num⟩

/-- C3 amended: construction never validates `explore_eps`; it succeeds for
every value (inside or outside (0, 0.5)) and for `None` alike. -/
theorem c3_amended_no_validation (exploreEps : Option ℝ)
    (discreteSteps : Bool) :
    airCellInit exploreEps discreteSteps
      = Except.ok ⟨exploreEps, discreteSteps⟩ := rfl

/-- C9: when the where-shift prior has no explicit location, the shift KL
coordinate of model.py lines 150–158 does not depend on the posterior shift
mean: the prior mean is set to the posterior mean, so only the scales enter. -/
theorem c9_shift_kl_independent_of_loc (wsp : ShiftPrior)
    (h : wsp.loc = none) (ut₁ ut₂ st : ℝ) :
    shiftKlTerm wsp ut₁ st = shiftKlTerm wsp ut₂ st := by
  simp [shiftKlTerm, h, klNormal]

/-- Witness for C9 at a concrete prior and two concrete shift means. -/
theorem c9_shift_kl_independent_of_loc_witness :
    shiftKlTerm ⟨none, 1⟩ 5 2 = shiftKlTerm ⟨none, 1⟩ (-3) 2 :=
  c9_shift_kl_independent_of_loc ⟨none, 1⟩ rfl 5 (-3) 2

/-- C7 counterexample: with the prior term enabled, pose priors supplied
(`where_scale_prior = Normal(0,1)`, `where_shift_prior = {scale: 1}`) but no
appearance prior, the prior loss of model.py `_prior_loss` contains no term at
all — in particular no pose-KL component — because the pose-KL block
(lines 139–163) sits inside `if appearance_prior is not None`. -/
theorem c7_counterexample_no_pose_kl_without_appearance :
    (airPriorLoss 1 1 1 3 none none ⟨0, 1⟩ ⟨none, 1⟩ 0
      ⟨fun _ => [1, 0, 0, 0], fun _ _ _ => 0, fun _ _ _ => 1,
       fun _ _ _ => 0, fun _ _ _ => 1, fun _ _ => 1⟩).terms = [] := rfl

/-- C7 amended: the pose-KL component is included in the prior loss exactly
when an appearance prior is also supplied: for every configuration with
`appearance_prior` present, the prior-loss term list contains the presence-
gated, step- and dimension-summed pose KL (scale KL against the where-scale
prior plus shift KL against the where-shift prior). -/
theorem c7_amended_pose_kl_requires_appearance_prior
    (S n nApp maxSteps : ℕ) (numStepsPrior : Option NumStepsPriorCfg)
    (ap : GaussPrior) (whereScalePrior : GaussPrior)
    (whereShiftPrior : ShiftPrior) (globalStep : ℝ)
    (post : PriorPosterior S n nApp) :
    (mean n (fun i => ∑ k,
        ((klNormal (post.whereLoc k i 0) (post.whereScale k i 0)
            whereScalePrior.loc whereScalePrior.scale
          + klNormal (post.whereLoc k i 2) (post.whereScale k i 2)
            whereScalePrior.loc whereScalePrior.scale)
         + (shiftKlTerm whereShiftPrior (post.whereLoc k i 1)
              (post.whereScale k i 1)
            + shiftKlTerm whereShiftPrior (post.whereLoc k i 3)
              (post.whereScale k i 3))) * post.presence k i),
     fun i => ∑ k,
        ((klNormal (post.whereLoc k i 0) (post.whereScale k i 0)
            whereScalePrior.loc whereScalePrior.scale
          + klNormal (post.whereLoc k i 2) (post.whereScale k i 2)
            whereScalePrior.loc whereScalePrior.scale)
         + (shiftKlTerm whereShiftPrior (post.whereLoc k i 1)
              (post.whereScale k i 1)
            + shiftKlTerm whereShiftPrior (post.whereLoc k i 3)
              (post.whereScale k i 3))) * post.presence k i)
      ∈ (airPriorLoss S n nApp maxSteps numStepsPrior (some ap)
          whereScalePrior whereShiftPrior globalStep post).terms := by
  simp [airPriorLoss, Loss.add]

/-- C6: with `use_prior = False`, `use_reinforce = False` and `l2_weight = 0`,
the optimized objective of model.py `train_step` is exactly the reconstruction
term: the batch mean of the per-sample negative Gaussian log-likelihood of the
observation, summed over pixels; no other contribution is added. -/
theorem c6_opt_loss_is_reconstruction_only
    (S n nApp nPix maxSteps : ℕ)
    (obs finalCanvas : Fin n → Fin nPix → ℝ) (outputStd : ℝ)
    (numStepsPrior : Option NumStepsPriorCfg)
    (appearancePrior : Option GaussPrior)
    (whereScalePrior : GaussPrior) (whereShiftPrior : ShiftPrior)
    (l2Term : ℝ) (baseline : Option (Fin n → ℝ)) (logProb : Fin n → ℝ)
    (globalStep : ℝ) (post : PriorPosterior S n nApp) :
    airOptLoss S n nApp nPix maxSteps obs finalCanvas outputStd numStepsPrior
        appearancePrior whereScalePrior whereShiftPrior false false 0 l2Term
        baseline logProb globalStep post
      = mean n (recLossPerSample obs finalCanvas outputStd) := by
  simp [airOptLoss, airTotalLoss, Loss.value, Loss.add]

/-- C1: with REINFORCE enabled, the quantity added to the optimized objective
by train_step is the REINFORCE surrogate evaluated on the per-sample total
loss; when the log-probabilities lie inside the clipping range, its forward
value is the batch mean of `stop_gradient(loss − baseline) · log_prob`, its
derivative carries no gradient through the advantage (only through
`log_prob`), and with no baseline the advantage is the per-sample loss
itself. -/
theorem c1_reinforce_surrogate (n : ℕ) (lossPS b logProb : Fin n → Dual)
    (hlp : ∀ i, -(10 ^ 38) ≤ (logProb i).val ∧ (logProb i).val ≤ 10 ^ 38) :
    (airReinforce n lossPS (some b) logProb).val
        = (∑ i, ((lossPS i).val - (b i).val) * (logProb i).val) / n
    ∧ (airReinforce n lossPS (some b) logProb).grad
        = (∑ i, ((lossPS i).val - (b i).val) * (logProb i).grad) / n
    ∧ (airReinforce n lossPS none logProb).val
        = (∑ i, (lossPS i).val * (logProb i).val) / n
    ∧ ∀ (S nApp nPix maxSteps : ℕ)
        (obs finalCanvas : Fin n → Fin nPix → ℝ) (outputStd : ℝ)
        (numStepsPrior : Option NumStepsPriorCfg)
        (appearancePrior : Option GaussPrior)
        (whereScalePrior : GaussPrior) (whereShiftPrior : ShiftPrior)
        (usePrior : Bool) (l2Weight l2Term : ℝ)
        (baselineR : Option (Fin n → ℝ)) (logProbR : Fin n → ℝ)
        (globalStep : ℝ) (post : PriorPosterior S n nApp),
        airOptLoss S n nApp nPix maxSteps obs finalCanvas outputStd
            numStepsPrior appearancePrior whereScalePrior whereShiftPrior
            usePrior true l2Weight l2Term baselineR logProbR globalStep post
          = airOptLoss S n nApp nPix maxSteps obs finalCanvas outputStd
              numStepsPrior appearancePrior whereScalePrior whereShiftPrior
              usePrior false l2Weight l2Term baselineR logProbR globalStep post
            + (airReinforce n
                (fun i => ⟨(airTotalLoss S n nApp nPix maxSteps obs finalCanvas
                  outputStd numStepsPrior appearancePrior whereScalePrior
                  whereShiftPrior usePrior globalStep post).perSample i, 0⟩)
                (baselineR.map fun b => fun i => ⟨b i, 0⟩)
                (fun i => ⟨logProbR i, 0⟩)).val := by
  have hclip : ∀ i, Dual.clip (logProb i) (-(10 ^ 38)) (10 ^ 38) = logProb i :=
    fun i => Dual.clip_of_mem _ _ _ (hlp i).1 (hlp i).2
  refine ⟨?_, ?_, ?_, ?_⟩
  · simp [airReinforce, hclip]
  · simp [airReinforce, hclip]
  · simp [airReinforce, hclip]
  · intro S nApp nPix maxSteps obs finalCanvas outputStd numStepsPrior
      appearancePrior whereScalePrior whereShiftPrior usePrior l2Weight l2Term
      baselineR logProbR globalStep post
    simp only [airOptLoss, if_true, if_false, Bool.false_eq_true]
    split <;> ring

/-- Witness for C1 on a one-sample batch with loss 2 (gradient 5), baseline 1
(gradient 3), log-probability −1 (gradient 7). -/
theorem c1_reinforce_surrogate_witness :
    (airReinforce 1 (fun _ => ⟨2, 5⟩) (some fun _ => ⟨1, 3⟩)
        (fun _ => ⟨-1, 7⟩)).grad
      = (∑ _i : Fin 1, ((2:ℝ) - 1) * 7) / (1:ℕ) :=
  (c1_reinforce_surrogate 1 (fun _ => ⟨2, 5⟩) (fun _ => ⟨1, 3⟩)
    (fun _ => ⟨-1, 7⟩) (fun _ => by norm_num)).2.1

/-- C5: for every annealing configuration with `0 < final ≤ init` (and
positive `steps`, `steps_div`), the annealed num-steps prior value is `init`
at global iteration 0, is non-increasing in the iteration counter, and never
goes below `final`, in every mode; in linear mode it decreases linearly from
`init` toward `final` over the configured number of steps and is floored at
`final` thereafter. -/
theorem c5_annealed_prior_schedule (nsp : NumStepsPriorCfg)
    (hfinal : 0 < nsp.final) (hle : nsp.final ≤ nsp.init)
    (hsteps : 0 < nsp.steps) (hdiv : 0 < nsp.stepsDiv) :
    annealedValue nsp 0 = nsp.init
    ∧ (∀ s t : ℝ, 0 ≤ s → s ≤ t → annealedValue nsp t ≤ annealedValue nsp s)
    ∧ (∀ t : ℝ, nsp.final ≤ annealedValue nsp t)
    ∧ (nsp.anneal = some AnnealMode.linear →
        (∀ t : ℝ, 0 ≤ t → t ≤ nsp.steps →
          annealedValue nsp t
            = nsp.init - (nsp.init - nsp.final) * (t / nsp.steps))
        ∧ ∀ t : ℝ, nsp.steps ≤ t → annealedValue nsp t = nsp.final) := by
  obtain ⟨anneal, init, final, stepsDiv, steps⟩ := nsp
  simp only at hfinal hle hsteps hdiv
  have hinit : 0 < init := lt_of_lt_of_le hfinal hle
  cases anneal with
  | none =>
    exact ⟨rfl, fun s t _ _ => le_rfl, fun t => hle,
      fun h => Option.noConfusion h⟩
  | some mode =>
    cases mode with
    | exp =>
      have hr0 : (0:ℝ) < final / init := div_pos hfinal hinit
      have hr1 : final / init ≤ 1 := (div_le_one hinit).mpr hle
      have hrate0 : (0:ℝ) < (final / init) ^ (stepsDiv / steps) :=
        Real.rpow_pos_of_pos hr0 _
      have hrate1 : (final / init) ^ (stepsDiv / steps) ≤ 1 :=
        Real.rpow_le_one hr0.le hr1 (div_nonneg hdiv.le hsteps.le)
      refine ⟨?_, ?_, ?_, fun h => by simp at h⟩
      · show max final
            (init * ((final / init) ^ (stepsDiv / steps)) ^ ((0:ℝ) / stepsDiv))
          = init
        rw [zero_div, Real.rpow_zero, mul_one, max_eq_right hle]
      · intro s t hs hst
        refine max_le_max le_rfl (mul_le_mul_of_nonneg_left ?_ hinit.le)
        exact Real.rpow_le_rpow_of_exponent_ge hrate0 hrate1
          ((div_le_div_iff_of_pos_right hdiv).mpr hst)
      · intro t
        exact le_max_left _ _
    | linear =>
      refine ⟨?_, ?_, ?_, fun _ => ⟨?_, ?_⟩⟩
      · show max final (final + (init - final) * (1 - (0:ℝ) / steps)) = init
        rw [show final + (init - final) * (1 - (0:ℝ) / steps) = init by
          rw [zero_div]; ring]
        exact max_eq_right hle
      · intro s t hs hst
        refine max_le_max le_rfl ?_
        have h1 : 1 - t / steps ≤ 1 - s / steps := by
          have := (div_le_div_iff_of_pos_right hsteps).mpr hst
          linarith
        exact add_le_add_left
          (mul_le_mul_of_nonneg_left h1 (sub_nonneg.mpr hle)) final
      · intro t
        exact le_max_left _ _
      · intro t ht0 hts
        have hfrac : t / steps ≤ 1 := (div_le_one hsteps).mpr hts
        have hinner : final ≤ final + (init - final) * (1 - t / steps) := by
          have h2 : 0 ≤ (init - final) * (1 - t / steps) :=
            mul_nonneg (sub_nonneg.mpr hle) (by linarith)
          linarith
        show max final (final + (init - final) * (1 - t / steps))
          = init - (init - final) * (t / steps)
        rw [max_eq_right hinner]
        ring
      · intro t hts
        have hfrac : 1 ≤ t / steps := (one_le_div hsteps).mpr hts
        have hinner : final + (init - final) * (1 - t / steps) ≤ final := by
          have h2 : 0 ≤ (init - final) * (t / steps - 1) :=
            mul_nonneg (sub_nonneg.mpr hle) (by linarith)
          nlinarith
        show max final (final + (init - final) * (1 - t / steps)) = final
        exact max_eq_left hinner

/-- Witness for C5 at the linear configuration with `init = 1`,
`final = 1/2`, `steps_div = 1`, `steps = 2`: the annealed value at
iteration 0 is `init`. -/
theorem c5_annealed_prior_schedule_witness :
    annealedValue ⟨some AnnealMode.linear, 1, 1 / 2, 1, 2⟩ 0 = 1 :=
  (c5_annealed_prior_schedule ⟨some AnnealMode.linear, 1, 1 / 2, 1, 2⟩
    (by norm_num) (by norm_num) (by norm_num) (by norm_num)).1

/-- In discrete mode, one cell step multiplies the carried presence by the
Bernoulli presence sample. -/
theorem airCellStep_presence_discrete {nPix nApp : ℕ} {H E O G P W : Type}
    (exploreEps : Option ℝ) (nets : CellNets nPix nApp H E O G P W)
    (draws : CellDraws nApp) (s : CellState nPix nApp H) :
    ((airCellStep true exploreEps nets draws s).2).presence
      = s.presence * draws.presenceSample := rfl

/-- In soft mode, one cell step sets the presence to the (possibly clipped)
predicted step probability. -/
theorem airCellStep_presence_soft {nPix nApp : ℕ} {H E O G P W : Type}
    (exploreEps : Option ℝ) (nets : CellNets nPix nApp H E O G P W)
    (draws : CellDraws nApp) (s : CellState nPix nApp H) :
    ((airCellStep false exploreEps nets draws s).2).presence
      = match exploreEps with
        | some eps =>
          clipR (nets.stepsPredictor (nets.transition
            (nets.rnnProjection (nets.inputEncoder s.imgFlat) s.whatCode
              s.whereCode s.presence) s.hidden).1) eps (1 - eps)
        | none =>
          nets.stepsPredictor (nets.transition
            (nets.rnnProjection (nets.inputEncoder s.imgFlat) s.whatCode
              s.whereCode s.presence) s.hidden).1 := by
  cases exploreEps <;>
    simp [airCellStep, straightThroughClip, Dual.clip]

/-- A clipped value from `(0,1)`, with a floor in `(0, 1/2)`, stays in
`[0,1]`. -/
theorem clipR_mem (σ eps : ℝ) (hσ0 : 0 < σ) (hσ1 : σ < 1) (heps0 : 0 < eps)
    (heps1 : eps < 1 / 2) :
    0 ≤ clipR σ eps (1 - eps) ∧ clipR σ eps (1 - eps) ≤ 1 := by
  constructor
  · exact le_trans heps0.le (le_max_right _ _)
  · exact max_le (le_trans (min_le_left _ _) hσ1.le) (by linarith)

/-- C2: starting from the initial state (presence 1), the cumulative presence
emitted by the cell stays in `[0,1]` at every step in both modes, and in
discrete mode the presence sequence is non-increasing (each step multiplies
the previous presence by a `{0,1}` Bernoulli sample of the sigmoid-derived
step probability). -/
theorem c2_presence_bounded_and_monotone {nPix nApp : ℕ} {H E O G P W : Type}
    (discreteSteps : Bool) (exploreEps : Option ℝ)
    (nets : CellNets nPix nApp H E O G P W) (draws : ℕ → CellDraws nApp)
    (canvasInit : Option ℝ) (img : Fin nPix → ℝ) (what0 : Fin nApp → ℝ)
    (where0 : Fin 4 → ℝ) (h0 : H) (mlp : O → ℝ) (bias : ℝ)
    (hpred : nets.stepsPredictor = stepsPredictorModule mlp bias)
    (heps : ∀ eps, exploreEps = some eps → 0 < eps ∧ eps < 1 / 2)
    (hber : ∀ k, (draws k).presenceSample = 0 ∨ (draws k).presenceSample = 1) :
    (∀ k, 0 ≤ (cellTrace discreteSteps exploreEps nets draws
          (airInitialState canvasInit img what0 where0 h0) k).presence
        ∧ (cellTrace discreteSteps exploreEps nets draws
          (airInitialState canvasInit img what0 where0 h0) k).presence ≤ 1)
    ∧ (discreteSteps = true → ∀ k,
        (cellTrace discreteSteps exploreEps nets draws
          (airInitialState canvasInit img what0 where0 h0) (k + 1)).presence
        ≤ (cellTrace discreteSteps exploreEps nets draws
          (airInitialState canvasInit img what0 where0 h0) k).presence) := by
  have hsoft : ∀ s : CellState nPix nApp H, ∀ j : ℕ,
      0 ≤ ((airCellStep false exploreEps nets (draws j) s).2).presence
      ∧ ((airCellStep false exploreEps nets (draws j) s).2).presence ≤ 1 := by
    intro s j
    rw [airCellStep_presence_soft]
    cases hee : exploreEps with
    | none =>
      have hσ := sigmoidR_mem (mlp (nets.transition
        (nets.rnnProjection (nets.inputEncoder s.imgFlat) s.whatCode
          s.whereCode s.presence) s.hidden).1 + bias)
      simpa [hpred, stepsPredictorModule] using ⟨hσ.1.le, hσ.2.le⟩
    | some eps =>
      have hσ := sigmoidR_mem (mlp (nets.transition
        (nets.rnnProjection (nets.inputEncoder s.imgFlat) s.whatCode
          s.whereCode s.presence) s.hidden).1 + bias)
      have he := heps eps hee
      simpa [hpred, stepsPredictorModule] using
        clipR_mem _ eps hσ.1 hσ.2 he.1 he.2
  cases discreteSteps with
  | false =>
    refine ⟨?_, fun h => by simp at h⟩
    intro k
    induction k with
    | zero =>
      constructor <;> simp [cellTrace, airInitialState]
    | succ k _ih =>
      simp only [cellTrace]
      exact hsoft _ k
  | true =>
    have hbound : ∀ k,
        0 ≤ (cellTrace true exploreEps nets draws
          (airInitialState canvasInit img what0 where0 h0) k).presence
        ∧ (cellTrace true exploreEps nets draws
          (airInitialState canvasInit img what0 where0 h0) k).presence ≤ 1 := by
      intro k
      induction k with
      | zero =>
        constructor <;> simp [cellTrace, airInitialState]
      | succ k ih =>
        simp only [cellTrace]
        rw [airCellStep_presence_discrete]
        rcases hber k with hb | hb <;> rw [hb]
        · simp
        · simpa using ih
    refine ⟨hbound, fun _ k => ?_⟩
    simp only [cellTrace]
    rw [airCellStep_presence_discrete]
    rcases hber k with hb | hb <;> rw [hb]
    · simpa using (hbound k).1
    · simp

/-- Witness for C2: the trivial instantiation in discrete mode with no
exploration floor; the presence after two steps is still in `[0,1]`. -/
theorem c2_presence_bounded_and_monotone_witness :
    0 ≤ (cellTrace true none trivialNets trivialDraws
        (airInitialState none (fun _ => 0) (fun _ => 0) (fun _ => 0) ())
        2).presence
    ∧ (cellTrace true none trivialNets trivialDraws
        (airInitialState none (fun _ => 0) (fun _ => 0) (fun _ => 0) ())
        2).presence ≤ 1 :=
  (c2_presence_bounded_and_monotone true none trivialNets trivialDraws none
    (fun _ => 0) (fun _ => 0) (fun _ => 0) () (fun _ => 0) 0 rfl
    (fun eps h => nomatch h) (fun _ => Or.inr rfl)).1 2

end AIR
